import Mathlib

/-!
Verification development for the Dashbot repository: a conversational
assistant over a campus spatial knowledge base, with a browser chat widget.

The repository ships two kinds of source: the chat-widget JavaScript
(`src/static/dashbot-widget.js` and the unnamed widget file), which is
embedded here directly, and the backend core (candidate resolver,
disambiguator, entity cache, proximity sensor lookup, routing coordinator)
whose Python/Cypher implementation (`neo4j_tools.py`, `orchestrator.py`,
provider clients) is not part of the source tree: only its documentation
with code excerpts is.  Those components are modelled from the spec and the
documented excerpts; each such definition carries a doc comment saying so.
-/

namespace Dashbot

/- ===================== Chat widget (embedded from source) ===================== -/

/-- JavaScript `String.prototype.trim()`: drop leading and trailing whitespace. -/
def jsTrim (s : String) : String :=
  String.mk (((s.toList.dropWhile Char.isWhitespace).reverse.dropWhile
    Char.isWhitespace).reverse)

/-- UI state of the chat widget touched by `sendMessage`
(input field, message list, loading flag, typing indicator, panel open). -/
structure WidgetState where
  inputValue : String
  messages : List (String × Bool)
  loading : Bool
  typing : Bool
  chatOpen : Bool
  deriving DecidableEq, Repr

/-- A POST body sent to the backend chat endpoint. -/
structure ChatRequest where
  message : String
  deriving DecidableEq, Repr

/-- `sendMessage` from the widget source, up to the network call:
`const msg = input.value.trim(); if (!msg) return;` then open the panel,
append the user message, clear the input, set loading and typing, and issue
one POST request with the trimmed message. -/
def sendMessage (s : WidgetState) : WidgetState × List ChatRequest :=
  let msg := jsTrim s.inputValue
  if msg = "" then (s, [])
  else
    let s1 := if s.chatOpen then s else { s with chatOpen := true }
    ({ s1 with
        messages := s1.messages ++ [(msg, true)]
        inputValue := ""
        loading := true
        typing := true }, [⟨msg⟩])

/-- Global replacement of the regex `<[^>]+>` by the empty string:
at `<`, a match runs to the first later `>` provided at least one
character stands between; otherwise scanning advances one character. -/
def stripHtmlTags : List Char → List Char
  | [] => []
  | c :: rest =>
    if c = '<' then
      match rest.findIdx? (fun d => d = '>') with
      | some i =>
        if i = 0 then c :: stripHtmlTags rest
        else stripHtmlTags (rest.drop (i + 1))
      | none => c :: stripHtmlTags rest
    else c :: stripHtmlTags rest
termination_by l => l.length
decreasing_by
  all_goals simp only [List.length_drop, List.length_cons]
  all_goals omega

/-- Index of the first occurrence of two consecutive `*` characters. -/
def findStarPair : List Char → Option Nat
  | '*' :: '*' :: _ => some 0
  | _ :: rest => (findStarPair rest).map (· + 1)
  | [] => none

/-- Global replacement of the lazy regex `\*\*(.+?)\*\*` by its capture:
`**text**` becomes `text`, where `text` is the shortest non-empty run
without a newline ending at a later `**`. -/
def unwrapBold : List Char → List Char
  | '*' :: '*' :: r0 :: rest0 =>
    match findStarPair rest0 with
    | some j =>
      if '\n' ∈ (r0 :: rest0).take (j + 1) then '*' :: unwrapBold ('*' :: r0 :: rest0)
      else (r0 :: rest0).take (j + 1) ++ unwrapBold ((r0 :: rest0).drop (j + 3))
    | none => '*' :: unwrapBold ('*' :: r0 :: rest0)
  | ['*', '*'] => ['*', '*']
  | c :: rest => c :: unwrapBold rest
  | [] => []
termination_by l => l.length
decreasing_by
  all_goals simp only [List.length_drop, List.length_cons]
  all_goals omega

/-- Global replacement of `\[([^\]]+)\]\([^)]+\)` by the link text:
`[text](url)` becomes `text`. -/
def stripMdLinks : List Char → List Char
  | [] => []
  | c :: rest =>
    if c = '[' then
      match rest.findIdx? (fun d => d = ']') with
      | some i =>
        if i = 0 then c :: stripMdLinks rest
        else
          match h : rest.drop (i + 1) with
          | '(' :: after0 =>
            match after0.findIdx? (fun d => d = ')') with
            | some j =>
              if j = 0 then c :: stripMdLinks rest
              else rest.take i ++ stripMdLinks (after0.drop (j + 1))
            | none => c :: stripMdLinks rest
          | _ => c :: stripMdLinks rest
      | none => c :: stripMdLinks rest
    else c :: stripMdLinks rest
termination_by l => l.length
decreasing_by
  all_goals simp only [List.length_drop, List.length_cons]
  all_goals try omega
  have h2 := congrArg List.length h
  simp only [List.length_drop, List.length_cons] at h2
  omega

/-- Global removal of the regex `#{1,6}\s*`: a run of up to six `#`
characters together with the following whitespace run. -/
def stripHeadings : List Char → List Char
  | [] => []
  | c :: rest =>
    if c = '#' then
      stripHeadings ((rest.drop (min (rest.takeWhile (fun d => d = '#')).length 5)).dropWhile
        Char.isWhitespace)
    else c :: stripHeadings rest
termination_by l => l.length
decreasing_by
  · have h1 : ((rest.drop (min (rest.takeWhile (fun d => d = '#')).length 5)).dropWhile
        Char.isWhitespace).length ≤ (rest.drop (min (rest.takeWhile (fun d => d = '#')).length 5)).length :=
      (List.dropWhile_sublist _).length_le
    simp only [List.length_drop, List.length_cons] at h1 ⊢
    omega
  · simp

/-- Global replacement of `\s+` by a single space. -/
def collapseWs : List Char → List Char
  | [] => []
  | c :: rest =>
    if c.isWhitespace then ' ' :: collapseWs (rest.dropWhile Char.isWhitespace)
    else c :: collapseWs rest
termination_by l => l.length
decreasing_by
  · have h1 : (rest.dropWhile Char.isWhitespace).length ≤ rest.length :=
      (List.dropWhile_sublist _).length_le
    simp only [List.length_cons]
    omega
  · simp

/-- Strip trailing and leading whitespace of a character list (the final
`.trim()` of the cleaning chain). -/
def trimWsList (l : List Char) : List Char :=
  ((l.dropWhile Char.isWhitespace).reverse.dropWhile Char.isWhitespace).reverse

/-- The cleaning chain of `stripForTts`: remove HTML tags, unwrap bold
markdown, strip markdown links, strip heading markers, collapse whitespace,
trim. -/
def cleanTtsText (text : String) : List Char :=
  trimWsList (collapseWs (stripHeadings (stripMdLinks (unwrapBold
    (stripHtmlTags text.toList)))))

/-- `stripForTts` from the widget source: `if (!text) return '';` (null and
the empty string both fail the guard), then the cleaning chain, then
truncation to 1000 characters with `'...'` appended when longer. -/
def stripForTts (text : Option String) : String :=
  match text with
  | none => ""
  | some t =>
    if t = "" then ""
    else
      let clean := cleanTtsText t
      if clean.length > 1000 then String.mk (clean.take 1000 ++ ['.', '.', '.'])
      else String.mk clean

/- ===================== Knowledge-base core (spec-modelled) ===================== -/

/-- Cypher/Python `toLower`: lowercase every character. -/
def lowerStr (s : String) : String := String.mk (s.toList.map Char.toLower)

/-- Whether `needle` occurs as a contiguous sublist of `hay`. -/
def listContainsSub : List Char → List Char → Bool
  | hay, needle =>
    match hay with
    | [] => needle.isEmpty
    | _ :: t => needle.isPrefixOf hay || listContainsSub t needle

/-- Cypher `CONTAINS`: substring test. -/
def strContains (hay needle : String) : Bool := listContainsSub hay.toList needle.toList

/-- Modelled from the spec: a building `LocationEntity` as read by
`_find_building_universal` in the missing `neo4j_tools.py` (documented in
`src/NEO4J_Campus_Graph_Documentation.md`): an id, a name and the remaining
node properties as key/value pairs, the coordinates rendered among them as
strings under the keys `latitude`/`longitude`. -/
structure Building where
  id : String
  name : String
  props : List (String × String)
  deriving DecidableEq, Repr

/-- The numeric property keys excluded from the text-search step of
`_find_building_universal` (documentation, Update 2). -/
def excludedNumericKeys : List String := ["latitude", "longitude", "lat", "lon", "id"]

/-- Step-2 text predicate of `_find_building_universal`: some property whose
key is not a numeric field has a lowercased value containing the search term. -/
def textPropMatch (searchTerm : String) (b : Building) : Bool :=
  b.props.any (fun kv =>
    !(excludedNumericKeys.contains kv.1) && strContains (lowerStr kv.2) searchTerm)

/-- Step-1 predicate of `_find_building_universal`: exact id equality. -/
def idMatch (searchTerm : String) (b : Building) : Bool := b.id == searchTerm

/-- Modelled from the spec: `_find_building_universal` after the ID-priority
fix (missing `neo4j_tools.py`; documented in Update 2): STEP 1 tries an
exact ID match first, STEP 2 searches text properties excluding the numeric
fields `latitude`, `longitude`, `lat`, `lon`, `id`. -/
def findBuildingUniversal (buildings : List Building) (searchTerm : String) : Option Building :=
  match buildings.find? (idMatch searchTerm) with
  | some b => some b
  | none => buildings.find? (textPropMatch searchTerm)

/-- The match kinds reported by the building search. -/
inductive BMatchType
  | exact
  | id_match
  | property
  | semantic
  deriving DecidableEq, Repr

/-- A building search result together with how it matched. -/
structure BuildingHit where
  building : Building
  matchType : BMatchType
  deriving DecidableEq, Repr

/-- Modelled from the spec: the non-semantic stages of the building search
(exact name, exact id, text property), in the priority order documented in
Update 5 and Update 2 of `src/NEO4J_Campus_Graph_Documentation.md`. -/
def buildingExactStage (bs : List Building) (q : String) : Option BuildingHit :=
  match bs.find? (fun b => lowerStr b.name == lowerStr q) with
  | some b => some ⟨b, BMatchType.exact⟩
  | none =>
    match bs.find? (idMatch q) with
    | some b => some ⟨b, BMatchType.id_match⟩
    | none =>
      match bs.find? (textPropMatch (lowerStr q)) with
      | some b => some ⟨b, BMatchType.property⟩
      | none => none

/-- Longest-common-subsequence recursion on a structural fuel argument
(every recursive call drops at least one character, so the combined length
is enough fuel). -/
def lcsLenAux : Nat → List Char → List Char → Nat
  | 0, _, _ => 0
  | _ + 1, [], _ => 0
  | _ + 1, _ :: _, [] => 0
  | fuel + 1, a :: ta, b :: tb =>
    if a = b then lcsLenAux fuel ta tb + 1
    else max (lcsLenAux fuel ta (b :: tb)) (lcsLenAux fuel (a :: ta) tb)

/-- Length of a longest common subsequence of two character lists. -/
def lcsLen (l1 l2 : List Char) : Nat := lcsLenAux (l1.length + l2.length) l1 l2

/-- Modelled from the spec: the string-similarity score of the semantic
fallback (`_init_semantic_search` in the missing `neo4j_tools.py`): a
difflib-style normalized score, twice the longest-common-subsequence length
over the combined length. -/
def similarity (a b : String) : ℚ :=
  if a.length + b.length = 0 then 0
  else (2 * (lcsLen a.toList b.toList : ℚ)) / ((a.length : ℚ) + (b.length : ℚ))

/-- Modelled from the spec: `_init_semantic_search` builds one searchable
text per building from all of its properties. -/
def buildingText (b : Building) : String :=
  b.props.foldl (fun acc kv => acc ++ " " ++ kv.2) b.name

/-- The tunable semantic-acceptance threshold, lowered from 0.25 to 0.18
(documentation: `_semantic_building_search(..., threshold: float = 0.18)`). -/
def semanticThreshold : ℚ := 18 / 100

/-- Best-scoring candidate, ties resolved toward the earlier element. -/
def bestScored : List (Building × ℚ) → Option (Building × ℚ)
  | [] => none
  | p :: rest =>
    match bestScored rest with
    | none => some p
    | some q => if p.2 < q.2 then some q else some p

/-- Modelled from the spec: `_semantic_building_search` (missing
`neo4j_tools.py`): score every building's concatenated text against the
query, take the best, and accept only if the score passes
`semanticThreshold`. -/
def semanticBuildingSearch (bs : List Building) (q : String) : Option Building :=
  match bestScored (bs.map (fun b =>
      (b, similarity (lowerStr q) (lowerStr (buildingText b))))) with
  | some p => if semanticThreshold ≤ p.2 then some p.1 else none
  | none => none

/-- Modelled from the spec: the full building search — exact stages first,
then the semantic fallback. -/
def buildingSearch (bs : List Building) (q : String) : Option BuildingHit :=
  match buildingExactStage bs q with
  | some h => some h
  | none => (semanticBuildingSearch bs q).map (fun b => ⟨b, BMatchType.semantic⟩)

/-- Modelled from the spec: a point-of-interest entity. -/
structure POI where
  name : String
  aliases : List String
  deriving DecidableEq, Repr

/-- Modelled from the spec: `get_poi_for_routing` (missing
`neo4j_tools.py`) succeeds on an exact case-insensitive match of the POI
name or one of its aliases. -/
def poiSearch (pois : List POI) (q : String) : Option POI :=
  pois.find? (fun p =>
    (lowerStr p.name == lowerStr q) || p.aliases.any (fun a => lowerStr a == lowerStr q))

/-- The entity class chosen by location classification. -/
inductive LocKind
  | building
  | poi
  deriving DecidableEq, Repr

/-- Modelled from the spec: `_classify_location` after the type-priority fix
(missing `neo4j_tools.py`; excerpt in Update 3, Problem 5): an exact / id /
property building match returns the building at once; a semantic-only
building match is held back while the POI search runs first; the semantic
building match is used only as a last resort. -/
def classifyLocation (bHit : Option BuildingHit) (pHit : Option POI) :
    Option (LocKind × String) :=
  match bHit with
  | some h =>
    if h.matchType ≠ BMatchType.semantic then some (LocKind.building, h.building.name)
    else
      match pHit with
      | some p => some (LocKind.poi, p.name)
      | none => some (LocKind.building, h.building.name)
  | none =>
    match pHit with
    | some p => some (LocKind.poi, p.name)
    | none => none

/-- The classification entry point: building search and POI search on the
same location text. -/
def classify (bs : List Building) (pois : List POI) (q : String) :
    Option (LocKind × String) :=
  classifyLocation (buildingSearch bs q) (poiSearch pois q)

/- ===================== Entity cache (spec-modelled) ===================== -/

/-- Modelled from the spec: an entity as remembered by the orchestrator's
cache — name, aliases, and a payload snapshot of the fields relevant to
generation. -/
structure CacheEntity where
  name : String
  aliases : List String
  payload : String
  deriving DecidableEq, Repr

/-- Normalized cache keys of an entity: lowercased name plus every alias. -/
def entityKeys (e : CacheEntity) : List String :=
  lowerStr e.name :: e.aliases.map lowerStr

/-- One cached record: its key set, payload snapshot and last-access stamp. -/
structure CacheRecord where
  keys : List String
  payload : String
  lastAccess : Nat
  deriving DecidableEq, Repr

/-- Modelled from the spec: the per-session entity cache of the orchestrator
(missing `orchestrator.py`; documented in Update 6): a bounded record list
plus a monotonic access counter and the capacity `max_cache_size`. -/
structure EntityCache where
  records : List CacheRecord
  counter : Nat
  capacity : Nat
  deriving DecidableEq, Repr

/-- A fresh session cache of the given capacity. -/
def emptyCache (n : Nat) : EntityCache := ⟨[], 0, n⟩

/-- Two key sets overlap when they share a normalized key. -/
def keyOverlap (ks1 ks2 : List String) : Bool := ks1.any (fun k => ks2.contains k)

/-- Remove the first record holding the smallest `lastAccess`. -/
def evictOldest : List CacheRecord → List CacheRecord
  | [] => []
  | r :: rs =>
    if rs.all (fun q => r.lastAccess ≤ q.lastAccess) then rs else r :: evictOldest rs

/-- Modelled from the spec: `remember` upserts a record keyed by the
entity's normalized name and every alias (records sharing a key are
replaced), stamps it with the access counter, and when the cache exceeds
its capacity evicts the record with the smallest `lastAccess`. -/
def remember (e : CacheEntity) (c : EntityCache) : EntityCache :=
  let ks := entityKeys e
  let kept := c.records.filter (fun r => !(keyOverlap r.keys ks))
  let recs := kept ++ [⟨ks, e.payload, c.counter⟩]
  ⟨if c.capacity < recs.length then evictOldest recs else recs, c.counter + 1, c.capacity⟩

/-- The most recently accessed record of a list. -/
def mostRecent : List CacheRecord → Option CacheRecord
  | [] => none
  | r :: rs =>
    match mostRecent rs with
    | none => some r
    | some q => if r.lastAccess < q.lastAccess then some q else some r

/-- Modelled from the spec: `recall` returns the payload of the most
recently accessed record whose key set contains the normalized text. -/
def recallEntity (text : String) (c : EntityCache) : Option String :=
  (mostRecent (c.records.filter (fun r => r.keys.contains (lowerStr text)))).map (·.payload)

/-- Folding `remember` over a conversation's resolved entities. -/
def rememberAll (es : List CacheEntity) (c : EntityCache) : EntityCache :=
  es.foldl (fun c e => remember e c) c

/-- The records a run of `remember` creates for a list of fresh (key-wise
unseen) entities, stamped from a starting counter value. -/
def recsFrom : List CacheEntity → Nat → List CacheRecord
  | [], _ => []
  | e :: es, k => ⟨entityKeys e, e.payload, k⟩ :: recsFrom es (k + 1)

/- ===================== Proximity sensor lookup (spec-modelled) ===================== -/

/-- A sensor node: id and sensor type. -/
structure Sensor where
  id : String
  stype : String
  deriving DecidableEq, Repr

/-- The confidence tiers of a sensor proximity result. -/
inductive ConfidenceTier
  | unavailable
  | far
  | nearby
  deriving DecidableEq, Repr

/-- The Cypher `CASE` of the documented sensor-coverage query, read as a
confidence tier: distance over 1000 m and distance over 500 m both fall in
the `far` tier, everything else is `nearby`. -/
def tierOfDist (d : ℚ) : ConfidenceTier :=
  if d > 1000 then ConfidenceTier.far
  else if d > 500 then ConfidenceTier.far
  else ConfidenceTier.nearby

/-- First element of minimal distance (Cypher `ORDER BY dist` and
`collect(...)[0]`). -/
def minByDist (dist : Sensor → ℚ) : List Sensor → Option Sensor
  | [] => none
  | s :: rest =>
    match minByDist dist rest with
    | none => some s
    | some m => if dist m < dist s then some m else some s

/-- The result shape of the nearest-sensor lookup. -/
structure SensorProximityResult where
  sensor : Option Sensor
  distance : Option ℚ
  tier : ConfidenceTier
  deriving DecidableEq, Repr

/-- Modelled from the spec: `nearestSensor` — filter the sensors of the
requested type, pick the one at minimal distance from the query coordinates
(the distance function stands for the great-circle `point.distance` of the
documented Cypher), and derive the confidence tier; no sensor of the
requested type means `unavailable`. -/
def nearestSensor (dist : Sensor → ℚ) (sensors : List Sensor) (t : String) :
    SensorProximityResult :=
  match minByDist dist (sensors.filter (fun s => s.stype == t)) with
  | none => ⟨none, none, ConfidenceTier.unavailable⟩
  | some s => ⟨some s, some (dist s), tierOfDist (dist s)⟩

/- ===================== Routing coordinator (spec-modelled) ===================== -/

/-- A raw provider route: distance, duration, and the street name attached
to each turn-by-turn step (empty when the provider supplies none). -/
structure RawRoute where
  distance : ℚ
  duration : ℚ
  stepNames : List String
  deriving DecidableEq, Repr

/-- `streets_on_route` from the documented `get_route_with_directions`
excerpt (Update 8): iterate the steps and append each name only if it is
non-empty, not already collected, and not the placeholder "-". -/
def streetsOnRoute (names : List String) : List String :=
  names.foldl (fun acc name =>
    if name != "" && !(acc.contains name) && name != "-" then acc ++ [name] else acc) []

/-- The normalized route shape handed to the generation layer. -/
structure RouteResult where
  mode : String
  distance : ℚ
  duration : ℚ
  streetNames : List String
  degraded : Bool
  deriving DecidableEq, Repr

/-- Modelled from the spec: the driving branch of the routing coordinator
(`_call_ors` in the missing `orchestrator.py`, documented in Update 7):
prefer the traffic-aware provider (TomTom); when it is unreachable or
errors, fall back to the general provider (ORS) and mark the result
degraded. -/
def routeDriving (tomtom : Option RawRoute) (general : Option RawRoute) : Option RouteResult :=
  match tomtom with
  | some r => some ⟨"driving", r.distance, r.duration, streetsOnRoute r.stepNames, false⟩
  | none =>
    match general with
    | some r => some ⟨"driving", r.distance, r.duration, streetsOnRoute r.stepNames, true⟩
    | none => none

/-- Modelled from the spec: the 8-point compass bucket of a bearing in
degrees used by the straight-line fallback of
`get_directions_between_buildings`. -/
def compassDirection8 (b : ℚ) : String :=
  if b < 22.5 then "north"
  else if b < 67.5 then "northeast"
  else if b < 112.5 then "east"
  else if b < 157.5 then "southeast"
  else if b < 202.5 then "south"
  else if b < 247.5 then "southwest"
  else if b < 292.5 then "west"
  else if b < 337.5 then "northwest"
  else "north"

/-- The fixed average walking speed of the fallback, in meters per minute. -/
def walkingSpeedMPerMin : ℚ := 80

/-- One turn-by-turn direction step as produced by
`get_directions_between_buildings`. -/
structure DirectionStep where
  step : Nat
  instruction : String
  towards : String
  distanceMeters : ℚ
  walkingTimeMinutes : ℚ
  direction : String
  deriving DecidableEq, Repr

/-- Modelled from the spec: the synthetic straight-line step appended by
`get_directions_between_buildings` when the graph has no path — the
great-circle distance between the two buildings (computed by Neo4j spatial
functions in the missing code and passed in here), the 8-point compass
bearing bucket, and the walking-time estimate at `walkingSpeedMPerMin`. -/
def syntheticFallbackStep (distM bearing : ℚ) (fromB toB : String) : DirectionStep :=
  ⟨1, "Head " ++ compassDirection8 bearing ++ " from " ++ fromB, toB,
    distM, distM / walkingSpeedMPerMin, compassDirection8 bearing⟩

/-- Modelled from the spec: `if not directions: directions.append(...)` —
the straight-line fallback fires exactly when graph routing produced no
steps. -/
def directionsWithFallback (graphSteps : List DirectionStep) (distM bearing : ℚ)
    (fromB toB : String) : List DirectionStep :=
  if graphSteps.isEmpty then [syntheticFallbackStep distM bearing fromB toB] else graphSteps

/-- Spec-side description of `streetsOnRoute` (spec §4.6: append each
step's street name only if it is non-empty and not already present,
preserving first-seen order): keep the first occurrence of every valid
name, in encounter order. -/
def firstSeenValid : List String → List String
  | [] => []
  | n :: ns =>
    if n != "" && n != "-" then n :: firstSeenValid (ns.filter (fun m => m != n))
    else firstSeenValid ns
termination_by l => l.length
decreasing_by
  · have h1 : (ns.filter (fun m => m != n)).length ≤ ns.length := List.length_filter_le _ _
    simp only [List.length_cons]
    omega
  · simp

/- ===================== Helper lemmas ===================== -/

theorem jsTrim_eq_empty_of_ws {s : String} (h : ∀ c ∈ s.toList, c.isWhitespace) :
    jsTrim s = "" := by
  unfold jsTrim
  rw [List.dropWhile_eq_nil_iff.mpr h]
  rfl

theorem length_mk (cs : List Char) : (String.mk cs).length = cs.length := rfl

theorem find?_exists {α : Type} {p : α → Bool} {l : List α} {a : α}
    (ha : a ∈ l) (hpa : p a = true) : ∃ b, l.find? p = some b ∧ p b = true := by
  have h1 : (l.find? p).isSome := List.find?_isSome.mpr ⟨a, ha, hpa⟩
  rcases Option.isSome_iff_exists.mp h1 with ⟨b, hb⟩
  exact ⟨b, hb, List.find?_some hb⟩

theorem minByDist_eq_none {dist : Sensor → ℚ} {l : List Sensor} :
    minByDist dist l = none ↔ l = [] := by
  cases l with
  | nil => simp [minByDist]
  | cons s rest =>
    cases hr : minByDist dist rest <;> simp [minByDist, hr] <;> split <;> simp

theorem minByDist_isSome {dist : Sensor → ℚ} {l : List Sensor} (h : l ≠ []) :
    ∃ m, minByDist dist l = some m := by
  cases hm : minByDist dist l with
  | none => exact absurd (minByDist_eq_none.mp hm) h
  | some m => exact ⟨m, rfl⟩

theorem minByDist_mem {dist : Sensor → ℚ} :
    ∀ {l : List Sensor} {m : Sensor}, minByDist dist l = some m → m ∈ l := by
  intro l
  induction l with
  | nil => intro m h; simp [minByDist] at h
  | cons s rest ih =>
    intro m h
    simp only [minByDist] at h
    cases hr : minByDist dist rest with
    | none =>
      rw [hr] at h
      simp only [Option.some.injEq] at h
      subst h
      exact List.mem_cons_self _ _
    | some m0 =>
      rw [hr] at h
      dsimp only at h
      by_cases hlt : dist m0 < dist s
      · rw [if_pos hlt] at h
        simp only [Option.some.injEq] at h
        subst h
        exact List.mem_cons_of_mem _ (ih hr)
      · rw [if_neg hlt] at h
        simp only [Option.some.injEq] at h
        subst h
        exact List.mem_cons_self _ _

theorem minByDist_le {dist : Sensor → ℚ} :
    ∀ {l : List Sensor} {m : Sensor}, minByDist dist l = some m →
      ∀ s ∈ l, dist m ≤ dist s := by
  intro l
  induction l with
  | nil => intro m h; simp [minByDist] at h
  | cons s rest ih =>
    intro m h
    simp only [minByDist] at h
    cases hr : minByDist dist rest with
    | none =>
      rw [hr] at h
      simp only [Option.some.injEq] at h
      subst h
      intro x hx
      rcases List.mem_cons.mp hx with h1 | h1
      · exact le_of_eq (congrArg dist h1.symm)
      · rw [minByDist_eq_none.mp hr] at h1
        simp at h1
    | some m0 =>
      rw [hr] at h
      dsimp only at h
      by_cases hlt : dist m0 < dist s
      · rw [if_pos hlt] at h
        simp only [Option.some.injEq] at h
        subst h
        intro x hx
        rcases List.mem_cons.mp hx with h1 | h1
        · exact le_of_le_of_eq (le_of_lt hlt) (congrArg dist h1.symm)
        · exact ih hr x h1
      · rw [if_neg hlt] at h
        simp only [Option.some.injEq] at h
        subst h
        intro x hx
        rcases List.mem_cons.mp hx with h1 | h1
        · exact le_of_eq (congrArg dist h1.symm)
        · exact le_trans (not_lt.mp hlt) (ih hr x h1)

theorem streets_step_preserve (acc : List String) (n : String) (h : acc ≠ []) :
    (if n != "" && !(acc.contains n) && n != "-" then acc ++ [n] else acc) ≠ [] := by
  split
  · simp
  · exact h

theorem streets_fold_ne_nil :
    ∀ (names acc : List String),
      (acc ≠ [] ∨ ∃ n ∈ names, n ≠ "" ∧ n ≠ "-") →
      names.foldl (fun acc name =>
        if name != "" && !(acc.contains name) && name != "-" then acc ++ [name]
        else acc) acc ≠ [] := by
  intro names
  induction names with
  | nil =>
    intro acc h
    rcases h with h | ⟨n, hn, _⟩
    · simpa using h
    · simp at hn
  | cons n ns ih =>
    intro acc h
    simp only [List.foldl_cons]
    apply ih
    rcases h with h | ⟨m, hm, hv⟩
    · exact Or.inl (streets_step_preserve acc n h)
    · rcases List.mem_cons.mp hm with h1 | h1
      · subst h1
        by_cases h0 : acc = []
        · subst h0
          left
          rw [if_pos (by simp [bne_iff_ne, hv.1, hv.2])]
          simp
        · exact Or.inl (streets_step_preserve acc m h0)
      · exact Or.inr ⟨m, h1, hv⟩

theorem streetsOnRoute_ne_nil {names : List String}
    (h : ∃ n ∈ names, n ≠ "" ∧ n ≠ "-") : streetsOnRoute names ≠ [] :=
  streets_fold_ne_nil names [] (Or.inr h)

theorem streets_fold_mem :
    ∀ (names acc : List String) (a : String),
      a ∈ names.foldl (fun acc name =>
        if name != "" && !(acc.contains name) && name != "-" then acc ++ [name]
        else acc) acc →
      a ∈ acc ∨ (a ≠ "" ∧ a ≠ "-") := by
  intro names
  induction names with
  | nil => intro acc a h; exact Or.inl (by simpa using h)
  | cons n ns ih =>
    intro acc a h
    simp only [List.foldl_cons] at h
    rcases ih _ a h with h1 | h1
    · by_cases hc : (n != "" && !(acc.contains n) && n != "-") = true
      · rw [if_pos hc] at h1
        rcases List.mem_append.mp h1 with h2 | h2
        · exact Or.inl h2
        · simp only [List.mem_singleton] at h2
          subst h2
          simp only [Bool.and_eq_true, bne_iff_ne] at hc
          exact Or.inr ⟨hc.1.1, hc.2⟩
      · rw [if_neg hc] at h1
        exact Or.inl h1
    · exact Or.inr h1

theorem streets_fold_nodup :
    ∀ (names acc : List String), acc.Nodup →
      (names.foldl (fun acc name =>
        if name != "" && !(acc.contains name) && name != "-" then acc ++ [name]
        else acc) acc).Nodup := by
  intro names
  induction names with
  | nil => intro acc h; simpa using h
  | cons n ns ih =>
    intro acc h
    simp only [List.foldl_cons]
    apply ih
    by_cases hc : (n != "" && !(acc.contains n) && n != "-") = true
    · rw [if_pos hc]
      simp only [Bool.and_eq_true, Bool.not_eq_true'] at hc
      have hn : n ∉ acc := by
        intro hmem
        have h2 : acc.contains n = true := by simpa using hmem
        rw [hc.1.2] at h2
        exact Bool.false_ne_true h2
      simp [List.nodup_append, h, hn]
    · rw [if_neg hc]
      exact h

theorem streets_fold_eq_firstSeen :
    ∀ (names acc : List String),
      names.foldl (fun acc name =>
        if name != "" && !(acc.contains name) && name != "-" then acc ++ [name]
        else acc) acc
      = acc ++ firstSeenValid (names.filter (fun m => !(acc.contains m))) := by
  intro names
  induction names with
  | nil => intro acc; simp [firstSeenValid]
  | cons n ns ih =>
    intro acc
    simp only [List.foldl_cons, List.filter_cons]
    by_cases hacc : acc.contains n
    · have hmem : n ∈ acc := by simpa using hacc
      have hc : ¬ (n != "" && !(acc.contains n) && n != "-") = true := by
        simp [hmem]
      rw [if_neg hc, if_neg (by simp [hmem])]
      exact ih acc
    · have hnot : n ∉ acc := by simpa using hacc
      rw [if_pos (show (!(acc.contains n)) = true by simpa using hnot)]
      by_cases hv : (n != "" && n != "-") = true
      · have hc : (n != "" && !(acc.contains n) && n != "-") = true := by
          simp only [Bool.and_eq_true] at hv ⊢
          exact ⟨⟨hv.1, by simpa using hnot⟩, hv.2⟩
        rw [if_pos hc, ih (acc ++ [n])]
        have hfsv : firstSeenValid (n :: ns.filter (fun m => !(acc.contains m)))
            = n :: firstSeenValid ((ns.filter (fun m => !(acc.contains m))).filter
                (fun m => m != n)) := by
          simp [firstSeenValid, hv]
        rw [hfsv, List.filter_filter]
        have hpt : ∀ m ∈ ns, (!((acc ++ [n]).contains m))
            = ((m != n) && !(acc.contains m)) := by
          intro m _
          by_cases h1 : m ∈ acc <;> by_cases h2 : m = n <;>
            simp [h1, h2, List.elem_iff]
        rw [List.filter_congr hpt]
        simp
      · have hv2 : (n != "" && n != "-") = false := by simpa using hv
        have hc : ¬ (n != "" && !(acc.contains n) && n != "-") = true := by
          rcases Bool.and_eq_false_iff.mp hv2 with h1 | h1 <;> simp [h1]
        rw [if_neg hc, ih acc]
        have hfsv : firstSeenValid (n :: ns.filter (fun m => !(acc.contains m)))
            = firstSeenValid (ns.filter (fun m => !(acc.contains m))) := by
          simp [firstSeenValid, hv2]
        rw [hfsv]

theorem bestScored_eq_none {l : List (Building × ℚ)} :
    bestScored l = none ↔ l = [] := by
  cases l with
  | nil => simp [bestScored]
  | cons x rest =>
    cases hr : bestScored rest <;> simp [bestScored, hr] <;> split <;> simp

theorem bestScored_isSome {l : List (Building × ℚ)} (h : l ≠ []) :
    ∃ p, bestScored l = some p := by
  cases hp : bestScored l with
  | none => exact absurd (bestScored_eq_none.mp hp) h
  | some p => exact ⟨p, rfl⟩

theorem bestScored_mem :
    ∀ {l : List (Building × ℚ)} {p : Building × ℚ}, bestScored l = some p → p ∈ l := by
  intro l
  induction l with
  | nil => intro p h; simp [bestScored] at h
  | cons x rest ih =>
    intro p h
    simp only [bestScored] at h
    cases hr : bestScored rest with
    | none =>
      rw [hr] at h
      dsimp only at h
      simp only [Option.some.injEq] at h
      subst h
      exact List.mem_cons_self _ _
    | some q =>
      rw [hr] at h
      dsimp only at h
      by_cases hlt : x.2 < q.2
      · rw [if_pos hlt] at h
        simp only [Option.some.injEq] at h
        subst h
        exact List.mem_cons_of_mem _ (ih hr)
      · rw [if_neg hlt] at h
        simp only [Option.some.injEq] at h
        subst h
        exact List.mem_cons_self _ _

theorem bestScored_ge :
    ∀ {l : List (Building × ℚ)} {p : Building × ℚ}, bestScored l = some p →
      ∀ x ∈ l, x.2 ≤ p.2 := by
  intro l
  induction l with
  | nil => intro p h; simp [bestScored] at h
  | cons y rest ih =>
    intro p h
    simp only [bestScored] at h
    cases hr : bestScored rest with
    | none =>
      rw [hr] at h
      dsimp only at h
      simp only [Option.some.injEq] at h
      subst h
      intro x hx
      rcases List.mem_cons.mp hx with h1 | h1
      · exact le_of_eq (congrArg Prod.snd h1)
      · rw [bestScored_eq_none.mp hr] at h1
        simp at h1
    | some q =>
      rw [hr] at h
      dsimp only at h
      by_cases hlt : y.2 < q.2
      · rw [if_pos hlt] at h
        simp only [Option.some.injEq] at h
        subst h
        intro x hx
        rcases List.mem_cons.mp hx with h1 | h1
        · exact le_of_eq_of_le (congrArg Prod.snd h1) (le_of_lt hlt)
        · exact ih hr x h1
      · rw [if_neg hlt] at h
        simp only [Option.some.injEq] at h
        subst h
        intro x hx
        rcases List.mem_cons.mp hx with h1 | h1
        · exact le_of_eq (congrArg Prod.snd h1)
        · exact le_trans (ih hr x h1) (not_lt.mp hlt)

theorem evictOldest_cons_of_min {r : CacheRecord} {rs : List CacheRecord}
    (h : ∀ q ∈ rs, r.lastAccess ≤ q.lastAccess) : evictOldest (r :: rs) = rs := by
  have hall : rs.all (fun q => r.lastAccess ≤ q.lastAccess) = true := by
    simp only [List.all_eq_true, decide_eq_true_eq]
    exact h
  simp [evictOldest, hall]

theorem evictOldest_length :
    ∀ {rs : List CacheRecord}, rs ≠ [] → (evictOldest rs).length = rs.length - 1 := by
  intro rs
  induction rs with
  | nil => intro h; exact absurd rfl h
  | cons r rest ih =>
    intro _
    by_cases hall : rest.all (fun q => r.lastAccess ≤ q.lastAccess) = true
    · simp [evictOldest, hall]
    · simp only [evictOldest]
      rw [if_neg hall]
      cases hrest : rest with
      | nil =>
        subst hrest
        simp at hall
      | cons a b =>
        rw [← hrest]
        have hr := ih (by rw [hrest]; simp)
        have hlen : 1 ≤ rest.length := by rw [hrest]; simp
        simp only [List.length_cons, hr]
        omega

theorem remember_length_le (e : CacheEntity) (c : EntityCache)
    (h : c.records.length ≤ c.capacity) :
    ((remember e c).records).length ≤ c.capacity := by
  have hfl : (c.records.filter fun r => !(keyOverlap r.keys (entityKeys e))).length
      ≤ c.records.length := List.length_filter_le _ _
  simp only [remember]
  by_cases hcap : c.capacity <
      ((c.records.filter fun r => !(keyOverlap r.keys (entityKeys e))) ++
        ([⟨entityKeys e, e.payload, c.counter⟩] : List CacheRecord)).length
  · rw [if_pos hcap]
    rw [evictOldest_length (by simp)]
    simp only [List.length_append, List.length_cons, List.length_nil] at hcap ⊢
    omega
  · rw [if_neg hcap]
    omega

theorem recsFrom_length : ∀ (es : List CacheEntity) (k : Nat),
    (recsFrom es k).length = es.length := by
  intro es
  induction es with
  | nil => intro k; simp [recsFrom]
  | cons e es' ih => intro k; simp [recsFrom, ih]

theorem recsFrom_keys : ∀ (es : List CacheEntity) (k : Nat) (r : CacheRecord),
    r ∈ recsFrom es k → ∃ a ∈ es, r.keys = entityKeys a := by
  intro es
  induction es with
  | nil => intro k r hr; simp [recsFrom] at hr
  | cons e es' ih =>
    intro k r hr
    simp only [recsFrom, List.mem_cons] at hr
    rcases hr with hr | hr
    · exact ⟨e, List.mem_cons_self _ _, by rw [hr]⟩
    · rcases ih (k + 1) r hr with ⟨a, ha, hk⟩
      exact ⟨a, List.mem_cons_of_mem _ ha, hk⟩

theorem rememberAll_shape :
    ∀ (es : List CacheEntity) (c : EntityCache),
      1 ≤ c.capacity →
      List.Pairwise (fun r q : CacheRecord => r.lastAccess < q.lastAccess) c.records →
      (∀ r ∈ c.records, r.lastAccess < c.counter) →
      c.records.length ≤ c.capacity →
      (∀ r ∈ c.records, ∀ e ∈ es, keyOverlap r.keys (entityKeys e) = false) →
      List.Pairwise (fun a b => keyOverlap (entityKeys a) (entityKeys b) = false) es →
      (rememberAll es c).records
          = (c.records ++ recsFrom es c.counter).drop
              (c.records.length + es.length - c.capacity) ∧
        (rememberAll es c).counter = c.counter + es.length := by
  intro es
  induction es with
  | nil =>
    intro c hcap hsort hctr hlen hdisj hpair
    have h0 : c.records.length + ([] : List CacheEntity).length - c.capacity = 0 := by
      simp only [List.length_nil]
      omega
    rw [h0]
    simp [rememberAll, recsFrom]
  | cons e es' ih =>
    intro c hcap hsort hctr hlen hdisj hpair
    have hkept : c.records.filter (fun r => !(keyOverlap r.keys (entityKeys e)))
        = c.records := by
      apply List.filter_eq_self.mpr
      intro r hr
      simp [hdisj r hr e (List.mem_cons_self _ _)]
    have hrecords : (remember e c).records
        = if c.capacity < c.records.length + 1 then
            evictOldest (c.records ++ [⟨entityKeys e, e.payload, c.counter⟩])
          else c.records ++ [⟨entityKeys e, e.payload, c.counter⟩] := by
      simp [remember, hkept]
    have hcounter : (remember e c).counter = c.counter + 1 := by simp [remember]
    have hcapacity : (remember e c).capacity = c.capacity := by simp [remember]
    have hfold : rememberAll (e :: es') c = rememberAll es' (remember e c) := by
      simp [rememberAll]
    have hpair' := (List.pairwise_cons.mp hpair)
    by_cases hfull : c.capacity < c.records.length + 1
    · have hlen_eq : c.records.length = c.capacity := by omega
      cases hrec0 : c.records with
      | nil =>
        rw [hrec0] at hlen_eq
        simp at hlen_eq
        omega
      | cons r0 rest0 =>
        have hsort0 := hrec0 ▸ hsort
        have hsort0' := List.pairwise_cons.mp hsort0
        have hmin : ∀ q ∈ rest0 ++ [(⟨entityKeys e, e.payload, c.counter⟩ : CacheRecord)],
            r0.lastAccess ≤ q.lastAccess := by
          intro q hq
          rcases List.mem_append.mp hq with h1 | h1
          · exact le_of_lt (hsort0'.1 q h1)
          · simp only [List.mem_singleton] at h1
            subst h1
            exact le_of_lt (hctr r0 (by rw [hrec0]; exact List.mem_cons_self _ _))
        have hc'rec : (remember e c).records
            = rest0 ++ [⟨entityKeys e, e.payload, c.counter⟩] := by
          rw [hrecords, if_pos hfull, hrec0, List.cons_append]
          exact evictOldest_cons_of_min hmin
        have hnewmem : ∀ r ∈ (remember e c).records,
            r ∈ rest0 ∨ r = ⟨entityKeys e, e.payload, c.counter⟩ := by
          intro r hr
          rw [hc'rec] at hr
          rcases List.mem_append.mp hr with h1 | h1
          · exact Or.inl h1
          · simp only [List.mem_singleton] at h1
            exact Or.inr h1
        have ihres := ih (remember e c)
          (by rw [hcapacity]; exact hcap)
          (by
            rw [hc'rec]
            apply List.pairwise_append.mpr
            refine ⟨hsort0'.2, List.pairwise_singleton _ _, ?_⟩
            intro r hr q hq
            simp only [List.mem_singleton] at hq
            subst hq
            exact hctr r (by rw [hrec0]; exact List.mem_cons_of_mem _ hr))
          (by
            intro r hr
            rw [hcounter]
            rcases hnewmem r hr with h1 | h1
            · exact Nat.lt_succ_of_lt (hctr r (by rw [hrec0]; exact List.mem_cons_of_mem _ h1))
            · rw [h1]
              exact Nat.lt_succ_self _)
          (by
            rw [hc'rec, hcapacity]
            simp only [List.length_append, List.length_cons, List.length_nil]
            have : rest0.length + 1 = c.records.length := by rw [hrec0]; simp
            omega)
          (by
            intro r hr e' he'
            rcases hnewmem r hr with h1 | h1
            · exact hdisj r (by rw [hrec0]; exact List.mem_cons_of_mem _ h1) e'
                (List.mem_cons_of_mem _ he')
            · rw [h1]
              exact hpair'.1 e' he')
          hpair'.2
        rcases ihres with ⟨ihrec, ihctr⟩
        constructor
        · rw [hfold, ihrec, hc'rec, hcounter, hcapacity]
          have hidx1 : (rest0 ++ [(⟨entityKeys e, e.payload, c.counter⟩ : CacheRecord)]).length
              + es'.length - c.capacity = es'.length := by
            simp only [List.length_append, List.length_cons, List.length_nil]
            have : rest0.length + 1 = c.records.length := by rw [hrec0]; simp
            omega
          have hidx2 : (r0 :: rest0).length + (e :: es').length - c.capacity
              = es'.length + 1 := by
            have h5 : rest0.length + 1 = c.records.length := by rw [hrec0]; simp
            simp only [List.length_cons]
            omega
          rw [hidx1, hidx2]
          simp only [recsFrom]
          rw [List.cons_append, List.drop_succ_cons, List.append_assoc,
            List.singleton_append]
        · rw [hfold, ihctr, hcounter]
          simp only [List.length_cons]
          omega
    · have hc'rec : (remember e c).records
          = c.records ++ [⟨entityKeys e, e.payload, c.counter⟩] := by
        rw [hrecords, if_neg hfull]
      have hnewmem : ∀ r ∈ (remember e c).records,
          r ∈ c.records ∨ r = ⟨entityKeys e, e.payload, c.counter⟩ := by
        intro r hr
        rw [hc'rec] at hr
        rcases List.mem_append.mp hr with h1 | h1
        · exact Or.inl h1
        · simp only [List.mem_singleton] at h1
          exact Or.inr h1
      have ihres := ih (remember e c)
        (by rw [hcapacity]; exact hcap)
        (by
          rw [hc'rec]
          apply List.pairwise_append.mpr
          refine ⟨hsort, List.pairwise_singleton _ _, ?_⟩
          intro r hr q hq
          simp only [List.mem_singleton] at hq
          subst hq
          exact hctr r hr)
        (by
          intro r hr
          rw [hcounter]
          rcases hnewmem r hr with h1 | h1
          · exact Nat.lt_succ_of_lt (hctr r h1)
          · rw [h1]
            exact Nat.lt_succ_self _)
        (by
          rw [hc'rec, hcapacity]
          simp only [List.length_append, List.length_cons, List.length_nil]
          omega)
        (by
          intro r hr e' he'
          rcases hnewmem r hr with h1 | h1
          · exact hdisj r h1 e' (List.mem_cons_of_mem _ he')
          · rw [h1]
            exact hpair'.1 e' he')
        hpair'.2
      rcases ihres with ⟨ihrec, ihctr⟩
      constructor
      · rw [hfold, ihrec, hc'rec, hcounter, hcapacity]
        have hidx : (c.records ++ [(⟨entityKeys e, e.payload, c.counter⟩ : CacheRecord)]).length
            + es'.length - c.capacity
            = c.records.length + (e :: es').length - c.capacity := by
          simp only [List.length_append, List.length_cons, List.length_nil]
          omega
        rw [hidx]
        simp only [recsFrom]
        rw [List.append_assoc, List.singleton_append]
      · rw [hfold, ihctr, hcounter]
        simp only [List.length_cons]
        omega

/- ===================== Claim theorems ===================== -/

/-- C9: for every input that is empty or whitespace-only, the widget's
`sendMessage` returns immediately: no message is appended, no network
request is issued, and the loading, typing-indicator, input-field and all
other UI-state fields are unchanged. -/
theorem sendMessage_whitespace_noop (s : WidgetState)
    (h : ∀ c ∈ s.inputValue.toList, c.isWhitespace) :
    sendMessage s = (s, []) := by
  unfold sendMessage
  simp [jsTrim_eq_empty_of_ws h]

/-- Witness for C9: a whitespace-only input on a concrete widget state. -/
theorem sendMessage_whitespace_noop_witness :
    sendMessage ⟨"  \t ", [("hi", true)], false, false, true⟩
      = (⟨"  \t ", [("hi", true)], false, false, true⟩, []) :=
  sendMessage_whitespace_noop _ (by decide)

/-- C10: for every input, the widget's `stripForTts` returns at most 1003
characters (the cleaned text truncated to 1000 plus "..." when longer),
and for null or empty input it returns the empty string. -/
theorem stripForTts_bounds :
    (∀ t, (stripForTts t).length ≤ 1003) ∧
    stripForTts none = "" ∧ stripForTts (some "") = "" := by
  refine ⟨?_, rfl, rfl⟩
  intro t
  match t with
  | none => simp [stripForTts]
  | some t =>
    by_cases h0 : t = ""
    · simp [stripForTts, h0]
    · simp only [stripForTts, h0, if_false]
      by_cases h1 : (cleanTtsText t).length > 1000
      · simp only [h1, if_true, length_mk, List.length_append, List.length_take,
          List.length_cons, List.length_nil]
        omega
      · simp only [h1, if_false, length_mk]
        omega

/-- C2: the exact-match step of the universal building resolver compares
only the id (a subset of id and name) and never numeric fields: whenever
some entity's id equals the query, the resolver returns an entity with that
id, never an entity whose coordinate value merely contains the query digits. -/
theorem resolve_exact_stage_numeric_exclusion :
    (∀ (q : String) (b : Building), idMatch q b = true ↔ b.id = q) ∧
    (∀ (bs : List Building) (q : String) (b1 : Building),
        b1 ∈ bs → b1.id = q →
        ∃ b2, findBuildingUniversal bs q = some b2 ∧ b2.id = q) := by
  constructor
  · intro q b
    simp [idMatch]
  · intro bs q b1 hmem hid
    have h1 : idMatch q b1 = true := by simp [idMatch, hid]
    rcases find?_exists hmem h1 with ⟨b2, hfind, hp⟩
    refine ⟨b2, ?_, by simpa [idMatch] using hp⟩
    unfold findBuildingUniversal
    rw [hfind]

/-- Witness for C2: query "24" against the documented scenario — one
building with id "24" and one whose latitude string contains "24". -/
theorem resolve_exact_stage_numeric_exclusion_witness :
    ∃ b2, findBuildingUniversal
      [⟨"01", "Campus Welcome Center",
          [("name", "Campus Welcome Center"), ("latitude", "52.14024458724847")]⟩,
       ⟨"24", "Faculty of Natural Sciences",
          [("name", "Faculty of Natural Sciences")]⟩] "24" = some b2 ∧ b2.id = "24" :=
  resolve_exact_stage_numeric_exclusion.2 _ "24"
    ⟨"24", "Faculty of Natural Sciences", [("name", "Faculty of Natural Sciences")]⟩
    (by simp) rfl

/-- C6: with no graph connectivity between the two entities, the route is a
single synthetic step whose distance is the given straight-line distance,
whose direction is the 8-point compass bearing bucket, and whose duration
is the distance over the fixed 80 m/min walking speed; at 1300 m toward
bearing 45° this gives direction "northeast" and 1300/80 minutes. -/
theorem route_straight_line_fallback :
    (∀ (d bearing : ℚ) (fromB toB : String),
        directionsWithFallback [] d bearing fromB toB
          = [syntheticFallbackStep d bearing fromB toB] ∧
        (directionsWithFallback [] d bearing fromB toB).length = 1 ∧
        (syntheticFallbackStep d bearing fromB toB).distanceMeters = d ∧
        (syntheticFallbackStep d bearing fromB toB).direction = compassDirection8 bearing ∧
        (syntheticFallbackStep d bearing fromB toB).walkingTimeMinutes
          = d / walkingSpeedMPerMin) ∧
    compassDirection8 45 = "northeast" ∧
    (syntheticFallbackStep 1300 45 "Building 23" "Building 24").walkingTimeMinutes
      = 1300 / 80 := by
  refine ⟨fun d bearing fromB toB => ⟨rfl, rfl, rfl, rfl, rfl⟩, ?_, rfl⟩
  norm_num [compassDirection8]

/-- C1: an exact match of any entity type outranks a fuzzy/semantic match
of any other type: when the text exactly matches a POI and the building
search found no exact/id/property match, classification returns the POI
and never the building; and an exact/id/property building match is
returned at once. -/
theorem classify_exact_type_priority :
    (∀ (bs : List Building) (pois : List POI) (q : String) (p : POI),
        poiSearch pois q = some p →
        buildingExactStage bs q = none →
        classify bs pois q = some (LocKind.poi, p.name)) ∧
    (∀ (bs : List Building) (pois : List POI) (q : String) (hit : BuildingHit),
        buildingSearch bs q = some hit → hit.matchType ≠ BMatchType.semantic →
        classify bs pois q = some (LocKind.building, hit.building.name)) := by
  constructor
  · intro bs pois q p hp hb
    unfold classify buildingSearch
    rw [hb]
    cases hsem : semanticBuildingSearch bs q with
    | none => simp [classifyLocation, hp]
    | some b => simp [classifyLocation, hp]
  · intro bs pois q hit hsearch hne
    unfold classify
    rw [hsearch]
    simp [classifyLocation, hne]

/-- Witness for C1: "izgaram" exactly names a POI and only semantically
matches the building "IBZ"; classification returns the POI. -/
theorem classify_exact_type_priority_witness :
    classify [⟨"ibz", "IBZ", []⟩] [⟨"Izgaram", []⟩] "izgaram"
      = some (LocKind.poi, "Izgaram") :=
  classify_exact_type_priority.1 _ _ _ ⟨"Izgaram", []⟩ (by decide) (by decide)

/-- C4: `nearestSensor` returns the minimum-distance sensor of the
requested type, with confidence tier `nearby` for distance at most 500 m,
`far` for distances in (500, 1000] and beyond 1000 m, and `unavailable`
when no sensor of the type exists. -/
theorem nearestSensor_min_distance_tier :
    (∀ (dist : Sensor → ℚ) (sensors : List Sensor) (t : String),
        (sensors.filter (fun s => s.stype == t) = [] →
          nearestSensor dist sensors t
            = ⟨none, none, ConfidenceTier.unavailable⟩) ∧
        (sensors.filter (fun s => s.stype == t) ≠ [] →
          ∃ m, nearestSensor dist sensors t
              = ⟨some m, some (dist m), tierOfDist (dist m)⟩ ∧
            m ∈ sensors.filter (fun s => s.stype == t) ∧
            ∀ s ∈ sensors.filter (fun s => s.stype == t), dist m ≤ dist s)) ∧
    (∀ d : ℚ,
        (d ≤ 500 → tierOfDist d = ConfidenceTier.nearby) ∧
        (500 < d → d ≤ 1000 → tierOfDist d = ConfidenceTier.far) ∧
        (1000 < d → tierOfDist d = ConfidenceTier.far)) := by
  constructor
  · intro dist sensors t
    constructor
    · intro hf
      unfold nearestSensor
      rw [hf]
      rfl
    · intro hf
      rcases @minByDist_isSome dist _ hf with ⟨m, hm⟩
      refine ⟨m, ?_, minByDist_mem hm, minByDist_le hm⟩
      unfold nearestSensor
      rw [hm]
  · intro d
    refine ⟨fun h => ?_, fun h1 h2 => ?_, fun h => ?_⟩ <;> unfold tierOfDist
    · rw [if_neg (by linarith), if_neg (by linarith)]
    · rw [if_neg (by linarith), if_pos h1]
    · rw [if_pos h]

/-- Witness for C4: two weather sensors at 300 m and 700 m; the lookup
returns the 300 m sensor with tier determined by its distance. -/
theorem nearestSensor_min_distance_tier_witness :
    ∃ m, nearestSensor (fun s => if s.id = "w1" then (300 : ℚ) else 700)
        [⟨"w1", "Weather"⟩, ⟨"w2", "Weather"⟩] "Weather"
        = ⟨some m, some (if m.id = "w1" then (300 : ℚ) else 700),
           tierOfDist (if m.id = "w1" then (300 : ℚ) else 700)⟩ ∧
      m ∈ ([⟨"w1", "Weather"⟩, ⟨"w2", "Weather"⟩] : List Sensor).filter
            (fun s => s.stype == "Weather") ∧
      ∀ s ∈ ([⟨"w1", "Weather"⟩, ⟨"w2", "Weather"⟩] : List Sensor).filter
            (fun s => s.stype == "Weather"),
        (if m.id = "w1" then (300 : ℚ) else 700) ≤ (if s.id = "w1" then (300 : ℚ) else 700) :=
  (nearestSensor_min_distance_tier.1
    (fun s => if s.id = "w1" then (300 : ℚ) else 700)
    [⟨"w1", "Weather"⟩, ⟨"w2", "Weather"⟩] "Weather").2 (by simp)

/-- C5: when the traffic-aware driving provider is unreachable or errors,
the driving route still succeeds via the fallback provider, marked
degraded, in driving mode, with non-empty street names. -/
theorem routeDriving_fallback_degraded :
    ∀ r : RawRoute, (∃ n ∈ r.stepNames, n ≠ "" ∧ n ≠ "-") →
      ∃ res, routeDriving none (some r) = some res ∧
        res.degraded = true ∧ res.mode = "driving" ∧ res.streetNames ≠ [] := by
  intro r h
  exact ⟨⟨"driving", r.distance, r.duration, streetsOnRoute r.stepNames, true⟩,
    rfl, rfl, rfl, streetsOnRoute_ne_nil h⟩

/-- Witness for C5: a concrete fallback route whose steps carry street
names. -/
theorem routeDriving_fallback_degraded_witness :
    ∃ res, routeDriving none
        (some ⟨3000, 300, ["Magdeburger Ring", "", "Ernst-Reuter-Allee"]⟩) = some res ∧
      res.degraded = true ∧ res.mode = "driving" ∧ res.streetNames ≠ [] :=
  routeDriving_fallback_degraded _ (by decide)

/-- C7: the collected street names contain no empty or placeholder entries
and no duplicates, and list the steps' street names in first-seen order
(they equal the first-occurrence subsequence of the valid names); every
`RouteResult` built by the coordinator obtains its street names this way. -/
theorem streetNames_first_seen_invariant :
    (∀ names : List String,
        streetsOnRoute names = firstSeenValid names ∧
        (streetsOnRoute names).Nodup ∧
        "" ∉ streetsOnRoute names ∧ "-" ∉ streetsOnRoute names) ∧
    (∀ (tomtom general : Option RawRoute) (res : RouteResult),
        routeDriving tomtom general = some res →
        ∃ r : RawRoute, res.streetNames = streetsOnRoute r.stepNames) := by
  constructor
  · intro names
    refine ⟨?_, streets_fold_nodup names [] List.nodup_nil, ?_, ?_⟩
    · have h := streets_fold_eq_firstSeen names []
      simpa [streetsOnRoute] using h
    · intro hmem
      rcases streets_fold_mem names [] "" hmem with h | h
      · simp at h
      · exact h.1 rfl
    · intro hmem
      rcases streets_fold_mem names [] "-" hmem with h | h
      · simp at h
      · exact h.2 rfl
  · intro tomtom general res h
    unfold routeDriving at h
    cases tomtom with
    | some r =>
      refine ⟨r, ?_⟩
      simp only [Option.some.injEq] at h
      rw [← h]
    | none =>
      cases general with
      | some r =>
        refine ⟨r, ?_⟩
        simp only [Option.some.injEq] at h
        rw [← h]
      | none => simp at h

/-- Witness for C7: the result built from a concrete provider route has
street names produced by `streetsOnRoute`. -/
theorem streetNames_first_seen_invariant_witness :
    ∃ r : RawRoute,
      (RouteResult.mk "driving" 1 2 (streetsOnRoute ["Breiter Weg"]) false).streetNames
        = streetsOnRoute r.stepNames :=
  streetNames_first_seen_invariant.2 (some ⟨1, 2, ["Breiter Weg"]⟩) none
    ⟨"driving", 1, 2, streetsOnRoute ["Breiter Weg"], false⟩ rfl

/-- C8: the semantic fallback accepts a candidate exactly when the best
similarity score passes the 0.18 threshold; the single-character typo
"libary" resolves to the entity named "Library", while the unrelated word
"mensa" (three-plus characters apart) does not resolve. -/
theorem semantic_threshold_accept :
    (∀ (bs : List Building) (q : String),
        (∃ b, semanticBuildingSearch bs q = some b) ↔
          (∃ b ∈ bs,
            semanticThreshold ≤ similarity (lowerStr q) (lowerStr (buildingText b)))) ∧
    semanticBuildingSearch [⟨"lib", "Library", []⟩] "libary"
      = some ⟨"lib", "Library", []⟩ ∧
    semanticBuildingSearch [⟨"lib", "Library", []⟩] "mensa" = none := by
  refine ⟨?_, ?_, ?_⟩
  · intro bs q
    constructor
    · rintro ⟨b, hb⟩
      unfold semanticBuildingSearch at hb
      cases hbest : bestScored (bs.map (fun b =>
          (b, similarity (lowerStr q) (lowerStr (buildingText b))))) with
      | none => rw [hbest] at hb; simp at hb
      | some p =>
        rw [hbest] at hb
        dsimp only at hb
        by_cases ht : semanticThreshold ≤ p.2
        · rcases List.mem_map.mp (bestScored_mem hbest) with ⟨b0, hb0, heq⟩
          subst heq
          exact ⟨b0, hb0, ht⟩
        · rw [if_neg ht] at hb
          simp at hb
    · rintro ⟨b, hmem, hsim⟩
      have hmap : (b, similarity (lowerStr q) (lowerStr (buildingText b)))
          ∈ bs.map (fun b => (b, similarity (lowerStr q) (lowerStr (buildingText b)))) :=
        List.mem_map_of_mem _ hmem
      have hne : bs.map (fun b =>
          (b, similarity (lowerStr q) (lowerStr (buildingText b)))) ≠ [] := by
        intro hnil
        rw [hnil] at hmap
        simp at hmap
      rcases bestScored_isSome hne with ⟨p, hp⟩
      refine ⟨p.1, ?_⟩
      unfold semanticBuildingSearch
      rw [hp]
      dsimp only
      rw [if_pos (le_trans hsim (bestScored_ge hp _ hmap))]
  · have hs : similarity (lowerStr "libary")
        (lowerStr (buildingText ⟨"lib", "Library", []⟩)) = 12 / 13 := by
      unfold similarity
      norm_num [show (lowerStr "libary").length = 6 from by decide,
        show (lowerStr (buildingText ⟨"lib", "Library", []⟩)).length = 7 from by decide,
        show lcsLen (lowerStr "libary").data
          (lowerStr (buildingText ⟨"lib", "Library", []⟩)).data = 6 from by decide]
    have hbest : bestScored (([⟨"lib", "Library", []⟩] : List Building).map (fun b =>
        (b, similarity (lowerStr "libary") (lowerStr (buildingText b)))))
        = some (⟨"lib", "Library", []⟩, 12 / 13) := by
      simp [bestScored, hs]
    unfold semanticBuildingSearch
    rw [hbest]
    dsimp only
    rw [if_pos (by norm_num [semanticThreshold])]
  · have hs : similarity (lowerStr "mensa")
        (lowerStr (buildingText ⟨"lib", "Library", []⟩)) = 1 / 6 := by
      unfold similarity
      norm_num [show (lowerStr "mensa").length = 5 from by decide,
        show (lowerStr (buildingText ⟨"lib", "Library", []⟩)).length = 7 from by decide,
        show lcsLen (lowerStr "mensa").data
          (lowerStr (buildingText ⟨"lib", "Library", []⟩)).data = 1 from by decide]
    have hbest : bestScored (([⟨"lib", "Library", []⟩] : List Building).map (fun b =>
        (b, similarity (lowerStr "mensa") (lowerStr (buildingText b)))))
        = some (⟨"lib", "Library", []⟩, 1 / 6) := by
      simp [bestScored, hs]
    unfold semanticBuildingSearch
    rw [hbest]
    dsimp only
    rw [if_neg (by norm_num [semanticThreshold])]

/-- C3: the entity cache never exceeds its capacity, and after remembering
N+1 key-disjoint entities in one fresh session of capacity N, the
least-recently-accessed (first) entity has been evicted, so recalling it by
name returns nothing. -/
theorem entity_cache_bound_and_lru_eviction :
    (∀ (c : EntityCache) (e : CacheEntity),
        c.records.length ≤ c.capacity →
        ((remember e c).records).length ≤ c.capacity) ∧
    (∀ (n : Nat) (e0 : CacheEntity) (rest : List CacheEntity),
        1 ≤ n → rest.length = n →
        List.Pairwise (fun a b => keyOverlap (entityKeys a) (entityKeys b) = false)
          (e0 :: rest) →
        (rememberAll (e0 :: rest) (emptyCache n)).records.length ≤ n ∧
        recallEntity e0.name (rememberAll (e0 :: rest) (emptyCache n)) = none) := by
  constructor
  · intro c e h
    exact remember_length_le e c h
  · intro n e0 rest h1 hlen hpair
    have hshape := rememberAll_shape (e0 :: rest) (emptyCache n)
      (by simpa [emptyCache] using h1)
      (by simp [emptyCache])
      (by simp [emptyCache])
      (by simp [emptyCache])
      (by simp [emptyCache])
      hpair
    rcases hshape with ⟨hrec, _⟩
    have hidx : (emptyCache n).records.length + (e0 :: rest).length
        - (emptyCache n).capacity = 1 := by
      simp only [emptyCache, List.length_nil, List.length_cons, hlen]
      omega
    rw [hidx] at hrec
    have hrec2 : (rememberAll (e0 :: rest) (emptyCache n)).records = recsFrom rest 1 := by
      rw [hrec]
      simp [recsFrom, emptyCache]
    constructor
    · rw [hrec2, recsFrom_length, hlen]
    · unfold recallEntity
      have hfilter : (rememberAll (e0 :: rest) (emptyCache n)).records.filter
          (fun r => r.keys.contains (lowerStr e0.name)) = [] := by
        rw [hrec2]
        apply List.filter_eq_nil_iff.mpr
        intro r hr
        rcases recsFrom_keys rest 1 r hr with ⟨a, ha, hkeys⟩
        have hov : keyOverlap (entityKeys e0) (entityKeys a) = false :=
          (List.pairwise_cons.mp hpair).1 a ha
        unfold keyOverlap at hov
        have hall := List.any_eq_false.mp hov
        have hmem0 : lowerStr e0.name ∈ entityKeys e0 := by
          simp [entityKeys]
        have hnc := hall _ hmem0
        rw [hkeys]
        simpa using hnc
      rw [hfilter]
      rfl

/-- Witness for C3: three key-disjoint entities into a fresh capacity-2
session: the cache stays within bound and the first entity is gone. -/
theorem entity_cache_bound_and_lru_eviction_witness :
    (rememberAll [⟨"A", [], "pa"⟩, ⟨"B", [], "pb"⟩, ⟨"C", [], "pc"⟩]
        (emptyCache 2)).records.length ≤ 2 ∧
    recallEntity (CacheEntity.mk "A" [] "pa").name
      (rememberAll [⟨"A", [], "pa"⟩, ⟨"B", [], "pb"⟩, ⟨"C", [], "pc"⟩]
        (emptyCache 2)) = none :=
  entity_cache_bound_and_lru_eviction.2 2 ⟨"A", [], "pa"⟩
    [⟨"B", [], "pb"⟩, ⟨"C", [], "pc"⟩] (by omega) rfl (by decide)

end Dashbot
